import Mathlib

/-!
Shallow embedding of the Configuration library: the URI-based backend factory
(src/ConfigurationFactory.cxx), the ConfigurationInterface contract
(include/Configuration/ConfigurationInterface.h) and the legacy configFile
loader (src/Configuration.cxx). Backend implementations, the vendored URI
parser and the Tree assembly helpers are not shipped under src/; where a claim
depends on them they are modelled from the spec, as marked in doc comments.
-/

/-- Generic association-list find, modelling std::map::find / key lookup used
throughout (the factory dispatch map, a backend key-value store). -/
def mapFind {β : Type} : List (String × β) → String → Option β
  | [], _ => none
  | (k, v) :: t, p => if p = k then some v else mapFind t p

/-- Parsed URL record as produced by the URI-parsing routine:
{protocol, host, port, path} (http::url in the source). -/
structure Url where
  protocol : String
  host : String
  port : Int
  path : String
deriving DecidableEq, Repr

/-- Build-time configuration flags, embedding the preprocessor definitions
FLP_CONFIGURATION_BACKEND_FILE_JSON_ENABLED and
FLP_CONFIGURATION_BACKEND_CONSUL_ENABLED of ConfigurationFactory.cxx. -/
structure BuildFlags where
  jsonEnabled : Bool
  consulEnabled : Bool
deriving DecidableEq, Repr

/-- The backend value constructed by the factory. A file/json backend holds the
filesystem path it was constructed with; a consul backend holds the host and
port it was constructed against and, in the third field, the argument of the
setPrefix call made on it by the factory (none when setPrefix was never
called). -/
inductive Backend where
  | file : String → Backend
  | json : String → Backend
  | consul : String → Int → Option String → Backend
deriving DecidableEq, Repr

/-- Embeds getFile of ConfigurationFactory.cxx: the path handed to the
FileBackend is "/" + uri.host + uri.path. -/
def getFile (uri : Url) : Except String Backend :=
  .ok (.file ("/" ++ uri.host ++ uri.path))

/-- Embeds getJson of ConfigurationFactory.cxx: behind the ifdef, the path
handed to the JsonBackend is "/" + uri.host + uri.path; with the backend not
compiled in, it throws. -/
def getJson (flags : BuildFlags) (uri : Url) : Except String Backend :=
  if flags.jsonEnabled then
    .ok (.json ("/" ++ uri.host ++ uri.path))
  else
    .error "Back-end 'json' not enabled"

/-- Embeds getConsul of ConfigurationFactory.cxx: behind the ifdef, a
ConsulBackend is constructed from uri.host and uri.port, and setPrefix is
called with uri.path exactly when uri.path is non-empty; with the backend not
compiled in, it throws. -/
def getConsul (flags : BuildFlags) (uri : Url) : Except String Backend :=
  if flags.consulEnabled then
    .ok (.consul uri.host uri.port (if uri.path = "" then none else some uri.path))
  else
    .error "Back-end 'consul' not enabled"

/-- The static scheme-to-constructor map of ConfigurationFactory::getConfiguration. -/
def dispatchMap (flags : BuildFlags) : List (String × (Url → Except String Backend)) :=
  [("file", getFile), ("json", getJson flags), ("consul", getConsul flags)]

/-- Embeds the body of ConfigurationFactory::getConfiguration after URI
parsing: empty protocol throws "Ill-formed URI"; otherwise the scheme is looked
up in the dispatch map, and a miss throws "Unrecognized backend". -/
def getConfigurationUrl (flags : BuildFlags) (parsedUrl : Url) : Except String Backend :=
  if parsedUrl.protocol = "" then
    .error "Ill-formed URI"
  else
    match mapFind (dispatchMap flags) parsedUrl.protocol with
    | some make => make parsedUrl
    | none => .error "Unrecognized backend"

/-- Splits a character list at the first occurrence of the separator sequence,
returning the parts before and after it, or none when it does not occur. -/
def breakAtSeq (seq : List Char) : List Char → Option (List Char × List Char)
  | [] => none
  | c :: cs =>
    if List.isPrefixOf seq (c :: cs) then
      some ([], (c :: cs).drop seq.length)
    else
      match breakAtSeq seq cs with
      | some (pre, post) => some (c :: pre, post)
      | none => none

/-- Parses a list of decimal digit characters into a number; none when the list
is empty or contains a non-digit. -/
def parseDigitsAux : List Char → Nat → Option Nat
  | [], acc => some acc
  | c :: cs, acc =>
    if c.isDigit then parseDigitsAux cs (acc * 10 + (c.toNat - '0'.toNat)) else none

/-- Parses a non-empty list of decimal digit characters into a number. -/
def parseDigits : List Char → Option Nat
  | [] => none
  | cs => parseDigitsAux cs 0

/-- Modelled from the spec: the URI-parsing routine (the vendored
UriParser/UriParser.hpp is not under src/) producing {scheme, host, port,
path}. Per the spec, a URI without a scheme delimiter yields an empty scheme,
and the first path segment after the scheme delimiter is taken as the host
("authority") with the remainder, leading separator included, as the path. -/
def parseHttpUrl (s : String) : Url :=
  match breakAtSeq "://".data s.data with
  | none => { protocol := "", host := "", port := -1, path := "" }
  | some (protoChars, rest) =>
    let rest2 := rest.dropWhile (fun c => c = '/')
    let hostPort := rest2.takeWhile (fun c => c ≠ '/')
    let pathChars := rest2.dropWhile (fun c => c ≠ '/')
    let hostChars := hostPort.takeWhile (fun c => c ≠ ':')
    let portChars := (hostPort.dropWhile (fun c => c ≠ ':')).drop 1
    { protocol := String.mk protoChars
      host := String.mk hostChars
      port := match parseDigits portChars with
              | some n => (n : Int)
              | none => -1
      path := String.mk pathChars }

/-- Embeds ConfigurationFactory::getConfiguration: parse the URI, then
dispatch. -/
def getConfiguration (flags : BuildFlags) (uri : String) : Except String Backend :=
  getConfigurationUrl flags (parseHttpUrl uri)

/-- Characterization of the factory dispatch: the map lookup unfolds to a
scheme-by-scheme case split. -/
theorem getConfigurationUrl_eq (flags : BuildFlags) (u : Url) :
    getConfigurationUrl flags u =
      if u.protocol = "" then .error "Ill-formed URI"
      else if u.protocol = "file" then getFile u
      else if u.protocol = "json" then getJson flags u
      else if u.protocol = "consul" then getConsul flags u
      else .error "Unrecognized backend" := by
  by_cases h0 : u.protocol = "" <;>
    by_cases hf : u.protocol = "file" <;>
      by_cases hj : u.protocol = "json" <;>
        by_cases hc : u.protocol = "consul" <;>
          simp_all [getConfigurationUrl, dispatchMap, mapFind]

/-- C1: for every URI string passed to getConfiguration, a parsed URI without a
scheme fails with the "Ill-formed URI" error, a present but unrecognized scheme
fails with the "Unrecognized backend" error, the two errors are distinct, and
on every input the call produces either one of the four catchable errors or a
constructed backend, never a null result. -/
theorem factory_error_taxonomy :
    ∀ (flags : BuildFlags) (s : String),
      (getConfiguration flags s = .error "Ill-formed URI" ↔ (parseHttpUrl s).protocol = "")
      ∧ (getConfiguration flags s = .error "Unrecognized backend" ↔
          ((parseHttpUrl s).protocol ≠ "" ∧ (parseHttpUrl s).protocol ≠ "file" ∧
           (parseHttpUrl s).protocol ≠ "json" ∧ (parseHttpUrl s).protocol ≠ "consul"))
      ∧ "Ill-formed URI" ≠ "Unrecognized backend"
      ∧ (getConfiguration flags s = .error "Ill-formed URI"
         ∨ getConfiguration flags s = .error "Unrecognized backend"
         ∨ getConfiguration flags s = .error "Back-end 'json' not enabled"
         ∨ getConfiguration flags s = .error "Back-end 'consul' not enabled"
         ∨ ∃ b, getConfiguration flags s = .ok b) := by
  intro flags s
  obtain ⟨jsonE, consulE⟩ := flags
  simp only [getConfiguration]
  rw [getConfigurationUrl_eq]
  cases jsonE <;> cases consulE <;>
    (by_cases h0 : (parseHttpUrl s).protocol = "" <;>
      by_cases hf : (parseHttpUrl s).protocol = "file" <;>
        by_cases hj : (parseHttpUrl s).protocol = "json" <;>
          by_cases hc : (parseHttpUrl s).protocol = "consul" <;>
            simp_all [getFile, getJson, getConsul])

/-- Closed witness for C1 at concrete inputs: a URI without a scheme and a
URI with an unrecognized scheme. -/
theorem factory_error_taxonomy_witness :
    getConfiguration ⟨true, true⟩ "not-a-uri" = .error "Ill-formed URI"
    ∧ getConfiguration ⟨true, true⟩ "ftp://host/x" = .error "Unrecognized backend" := by
  constructor
  · exact (factory_error_taxonomy ⟨true, true⟩ "not-a-uri").1.mpr (by decide)
  · exact (factory_error_taxonomy ⟨true, true⟩ "ftp://host/x").2.1.mpr (by decide)

/-- C2: for every accepted file or json URI the filesystem path handed to the
backend is the concatenation "/" + host + path of the parsed URI, and in
particular getConfiguration on "file:///tmp/x.ini" constructs a file backend
with internal path exactly "/tmp/x.ini". -/
theorem file_json_path_normalization :
    (∀ (flags : BuildFlags) (u : Url), u.protocol = "file" →
        getConfigurationUrl flags u = .ok (.file ("/" ++ u.host ++ u.path)))
    ∧ (∀ (flags : BuildFlags) (u : Url), flags.jsonEnabled = true → u.protocol = "json" →
        getConfigurationUrl flags u = .ok (.json ("/" ++ u.host ++ u.path)))
    ∧ (∀ flags : BuildFlags, getConfiguration flags "file:///tmp/x.ini" = .ok (.file "/tmp/x.ini")) := by
  refine ⟨?_, ?_, ?_⟩
  · intro flags u h
    rw [getConfigurationUrl_eq]
    simp [h, getFile]
  · intro flags u hf h
    rw [getConfigurationUrl_eq]
    simp [h, getJson, hf]
  · intro flags
    rfl

/-- Closed witness for C2: a json URL record and the concrete file URI. -/
theorem file_json_path_normalization_witness :
    getConfigurationUrl ⟨true, true⟩ ⟨"json", "tmp", -1, "/x.json"⟩ = .ok (.json "/tmp/x.json")
    ∧ getConfiguration ⟨true, true⟩ "file:///tmp/x.ini" = .ok (.file "/tmp/x.ini") := by
  constructor
  · exact file_json_path_normalization.2.1 ⟨true, true⟩ ⟨"json", "tmp", -1, "/x.json"⟩ rfl rfl
  · exact file_json_path_normalization.2.2 ⟨true, true⟩

/-- C4: a recognized scheme whose backend was excluded from the build fails
with the corresponding "not enabled" error and never yields a backend. -/
theorem backend_not_enabled :
    ∀ (flags : BuildFlags) (u : Url),
      (flags.jsonEnabled = false → u.protocol = "json" →
          getConfigurationUrl flags u = .error "Back-end 'json' not enabled"
          ∧ ∀ b, getConfigurationUrl flags u ≠ .ok b)
      ∧ (flags.consulEnabled = false → u.protocol = "consul" →
          getConfigurationUrl flags u = .error "Back-end 'consul' not enabled"
          ∧ ∀ b, getConfigurationUrl flags u ≠ .ok b) := by
  intro flags u
  constructor
  · intro hflag h
    rw [getConfigurationUrl_eq]
    simp [h, getJson, hflag]
  · intro hflag h
    rw [getConfigurationUrl_eq]
    simp [h, getConsul, hflag]

/-- Closed witness for C4: json and consul URIs against a build with both
optional backends disabled. -/
theorem backend_not_enabled_witness :
    getConfigurationUrl ⟨false, false⟩ ⟨"json", "h", -1, "/p"⟩ = .error "Back-end 'json' not enabled"
    ∧ getConfigurationUrl ⟨false, false⟩ ⟨"consul", "h", 8500, "/p"⟩ = .error "Back-end 'consul' not enabled" := by
  constructor
  · exact ((backend_not_enabled ⟨false, false⟩ ⟨"json", "h", -1, "/p"⟩).1 rfl rfl).1
  · exact ((backend_not_enabled ⟨false, false⟩ ⟨"consul", "h", 8500, "/p"⟩).2 rfl rfl).1

/-- C5: for every consul URI with the backend enabled, the factory constructs
the backend against the URI host and port and records a setPrefix call with the
URI path exactly when the path is non-empty; an empty path yields a backend on
which setPrefix was never called. -/
theorem consul_construction :
    ∀ (flags : BuildFlags) (u : Url), flags.consulEnabled = true → u.protocol = "consul" →
      getConfigurationUrl flags u =
        .ok (.consul u.host u.port (if u.path = "" then none else some u.path))
      ∧ (u.path = "" → getConfigurationUrl flags u = .ok (.consul u.host u.port none))
      ∧ (u.path ≠ "" → getConfigurationUrl flags u = .ok (.consul u.host u.port (some u.path))) := by
  intro flags u hflag h
  have hmain : getConfigurationUrl flags u =
      .ok (.consul u.host u.port (if u.path = "" then none else some u.path)) := by
    rw [getConfigurationUrl_eq]
    simp [h, getConsul, hflag]
  refine ⟨hmain, ?_, ?_⟩
  · intro hp
    rw [hmain, if_pos hp]
  · intro hp
    rw [hmain, if_neg hp]

/-- Closed witness for C5: consul URLs with a non-empty and with an empty path. -/
theorem consul_construction_witness :
    getConfigurationUrl ⟨true, true⟩ ⟨"consul", "localhost", 8500, "/dir"⟩ =
      .ok (.consul "localhost" 8500 (some "/dir"))
    ∧ getConfigurationUrl ⟨true, true⟩ ⟨"consul", "localhost", 8500, ""⟩ =
      .ok (.consul "localhost" 8500 none) := by
  constructor
  · exact (consul_construction ⟨true, true⟩ ⟨"consul", "localhost", 8500, "/dir"⟩ rfl rfl).2.2
      (by decide)
  · exact (consul_construction ⟨true, true⟩ ⟨"consul", "localhost", 8500, ""⟩ rfl rfl).2.1 rfl

/-- C10: a URI with scheme "file" constructs and returns a FileBackend for
every combination of build flags, so no "not enabled" (or any other) error can
occur for a file URI. -/
theorem file_scheme_unguarded :
    ∀ (flags : BuildFlags) (u : Url), u.protocol = "file" →
      getConfigurationUrl flags u = .ok (.file ("/" ++ u.host ++ u.path))
      ∧ ∀ e, getConfigurationUrl flags u ≠ .error e := by
  intro flags u h
  have hmain : getConfigurationUrl flags u = .ok (.file ("/" ++ u.host ++ u.path)) := by
    rw [getConfigurationUrl_eq]
    simp [h, getFile]
  refine ⟨hmain, ?_⟩
  intro e he
  rw [hmain] at he
  exact Except.noConfusion he

/-- Closed witness for C10: a file URL record dispatched with both optional
backends disabled still yields the file backend. -/
theorem file_scheme_unguarded_witness :
    getConfigurationUrl ⟨false, false⟩ ⟨"file", "tmp", -1, "/x.ini"⟩ = .ok (.file "/tmp/x.ini") := by
  exact (file_scheme_unguarded ⟨false, false⟩ ⟨"file", "tmp", -1, "/x.ini"⟩ rfl).1

/-- Splits a character list on a separator character; mirrors segment splitting
of hierarchical paths. -/
def splitChars (sep : Char) : List Char → List (List Char)
  | [] => [[]]
  | c :: cs =>
    if c = sep then
      [] :: splitChars sep cs
    else
      match splitChars sep cs with
      | h :: t => (c :: h) :: t
      | [] => [[c]]

/-- Modelled from the spec: a backend instance over its underlying key-value
medium (the FileBackend/JsonBackend/ConsulBackend implementations are not under
src/). Per the spec a backend stores scalar values as strings at hierarchical
string keys. -/
structure StoreBackend where
  entries : List (String × String)
deriving DecidableEq, Repr

/-- Modelled from the spec: getString returns the stored string at the path, or
an empty optional when the path does not exist; absence is structural, the
function is total and never fails. -/
def StoreBackend.getString (b : StoreBackend) (path : String) : Option String :=
  mapFind b.entries path

/-- Modelled from the spec: the exists operation reports whether a value is
present at the path. Named existsKey because the source's name exists is a
reserved word here. -/
def StoreBackend.existsKey (b : StoreBackend) (path : String) : Bool :=
  (b.getString path).isSome

/-- Modelled from the spec: the shared shape of the default typed getters of
ConfigurationInterface (ConfigurationInterface.cxx is not under src/): call
getString; an absent key gives an empty optional; a present string that is not
a valid representation of the requested type fails with a conversion error;
otherwise the parsed value is returned wrapped in the optional. -/
def StoreBackend.getTyped {α : Type} (parse : String → Option α) (b : StoreBackend)
    (path : String) : Except String (Option α) :=
  match b.getString path with
  | none => .ok none
  | some s =>
    match parse s with
    | some v => .ok (some v)
    | none => .error ("Conversion failed for value: " ++ s)

/-- Modelled from the spec: strict integer parse of a stored string (the
lexical conversion library is an external collaborator): an optional sign
followed by at least one decimal digit, with the whole string consumed. -/
def parseIntStrict (s : String) : Option Int :=
  match s.data with
  | '-' :: rest => (parseDigits rest).map (fun n => -(n : Int))
  | '+' :: rest => (parseDigits rest).map (fun n => (n : Int))
  | l => (parseDigits l).map (fun n => (n : Int))

/-- Modelled from the spec: strict floating point parse of a stored string: an
optional sign, an integer part, and optionally a dot with a fractional part,
with the whole string consumed; the value is represented exactly as a rational. -/
def parseFloatStrict (s : String) : Option ℚ :=
  let signed : Bool × List Char :=
    match s.data with
    | '-' :: rest => (true, rest)
    | '+' :: rest => (false, rest)
    | l => (false, l)
  let body :=
    match splitChars '.' signed.2 with
    | [intPart] => (parseDigits intPart).map (fun n => (n : ℚ))
    | [intPart, fracPart] =>
      match parseDigits intPart, parseDigits fracPart with
      | some n, some m => some ((n : ℚ) + (m : ℚ) / (10 : ℚ) ^ fracPart.length)
      | _, _ => none
    | _ => none
  body.map (fun q => if signed.1 then -q else q)

/-- Modelled from the spec: the default getInt of ConfigurationInterface. -/
def StoreBackend.getInt (b : StoreBackend) (path : String) : Except String (Option Int) :=
  b.getTyped parseIntStrict path

/-- Modelled from the spec: the default getFloat of ConfigurationInterface. -/
def StoreBackend.getFloat (b : StoreBackend) (path : String) : Except String (Option ℚ) :=
  b.getTyped parseFloatStrict path

/-- Helper: association-list find misses every key that is not in the list. -/
theorem mapFind_eq_none {β : Type} (l : List (String × β)) (p : String)
    (h : p ∉ l.map Prod.fst) : mapFind l p = none := by
  induction l with
  | nil => rfl
  | cons kv t ih =>
    simp only [List.map_cons, List.mem_cons] at h
    push_neg at h
    simp only [mapFind, if_neg h.1]
    exact ih h.2

/-- C3: for every backend and every path at which no value has been written,
getString returns an empty optional and the existence check returns false;
absence is represented structurally, getString being a total function whose
empty result coincides exactly with a false existence check. -/
theorem absent_key_structural :
    ∀ (b : StoreBackend) (p : String),
      (p ∉ b.entries.map Prod.fst → b.getString p = none ∧ b.existsKey p = false)
      ∧ (b.getString p = none ↔ b.existsKey p = false) := by
  intro b p
  constructor
  · intro h
    have hnone : b.getString p = none := mapFind_eq_none b.entries p h
    exact ⟨hnone, by simp [StoreBackend.existsKey, hnone]⟩
  · cases hv : b.getString p <;> simp [StoreBackend.existsKey, hv]

/-- Closed witness for C3: a store holding only key "a", queried at absent
key "b". -/
theorem absent_key_structural_witness :
    StoreBackend.getString ⟨[("a", "1")]⟩ "b" = none
    ∧ StoreBackend.existsKey ⟨[("a", "1")]⟩ "b" = false := by
  exact (absent_key_structural ⟨[("a", "1")]⟩ "b").1 (by decide)

/-- C6: getInt and getFloat fetch the string value first; an absent key gives
an empty optional, a present string that does not parse strictly as the
requested numeric type fails with a conversion error (never a truncated or zero
value), and a valid string yields the parsed number wrapped in the optional. -/
theorem typed_get_conversion :
    ∀ (b : StoreBackend) (p : String),
      (b.getString p = none → b.getInt p = .ok none ∧ b.getFloat p = .ok none)
      ∧ (∀ s, b.getString p = some s → parseIntStrict s = none →
          b.getInt p = .error ("Conversion failed for value: " ++ s))
      ∧ (∀ s n, b.getString p = some s → parseIntStrict s = some n →
          b.getInt p = .ok (some n))
      ∧ (∀ s, b.getString p = some s → parseFloatStrict s = none →
          b.getFloat p = .error ("Conversion failed for value: " ++ s))
      ∧ (∀ s q, b.getString p = some s → parseFloatStrict s = some q →
          b.getFloat p = .ok (some q)) := by
  intro b p
  refine ⟨?_, ?_, ?_, ?_, ?_⟩
  · intro h
    constructor <;> simp [StoreBackend.getInt, StoreBackend.getFloat, StoreBackend.getTyped, h]
  · intro s hs hparse
    simp [StoreBackend.getInt, StoreBackend.getTyped, hs, hparse]
  · intro s n hs hparse
    simp [StoreBackend.getInt, StoreBackend.getTyped, hs, hparse]
  · intro s hs hparse
    simp [StoreBackend.getFloat, StoreBackend.getTyped, hs, hparse]
  · intro s q hs hparse
    simp [StoreBackend.getFloat, StoreBackend.getTyped, hs, hparse]

/-- Closed witness for C6: a store with a non-numeric value and a numeric
value, queried at an absent key, at the invalid value and at the valid value. -/
theorem typed_get_conversion_witness :
    StoreBackend.getInt ⟨[("k", "abc"), ("n", "42")]⟩ "missing" = .ok none
    ∧ StoreBackend.getInt ⟨[("k", "abc"), ("n", "42")]⟩ "k" =
        .error "Conversion failed for value: abc"
    ∧ StoreBackend.getInt ⟨[("k", "abc"), ("n", "42")]⟩ "n" = .ok (some 42) := by
  refine ⟨?_, ?_, ?_⟩
  · exact ((typed_get_conversion ⟨[("k", "abc"), ("n", "42")]⟩ "missing").1 (by decide)).1
  · exact (typed_get_conversion ⟨[("k", "abc"), ("n", "42")]⟩ "k").2.1 "abc" (by decide) (by decide)
  · exact (typed_get_conversion ⟨[("k", "abc"), ("n", "42")]⟩ "n").2.2.1 "42" 42 (by decide)
      (by decide)

/-- Modelled from the spec: Tree::Node (Configuration/Tree.h is not under
src/): a recursive node with an optional scalar value and a keyed list of
children; a node may carry both its own value and children. -/
inductive Node where
  | node : Option String → List (String × Node) → Node
deriving Repr

/-- Looks up the child with the given segment name. -/
def lookupChild : List (String × Node) → String → Option Node
  | [], _ => none
  | (k, n) :: t, s => if k = s then some n else lookupChild t s

/-- Replaces the child with the given segment name, or appends it when absent. -/
def setChild : List (String × Node) → String → Node → List (String × Node)
  | [], s, n => [(s, n)]
  | (k, m) :: t, s, n => if k = s then (s, n) :: t else (k, m) :: setChild t s n

/-- Modelled from the spec: tree assembly of a recursive-get result. Walks or
creates the intermediate nodes for all segments but the last and attaches the
scalar value at the final segment; an empty segment list attaches the value to
the node itself, preserving its children. -/
def Node.insertPath : Node → List String → String → Node
  | .node _ cs, [], v => .node (some v) cs
  | .node v0 cs, s :: rest, v =>
    .node v0 (setChild cs s
      (Node.insertPath ((lookupChild cs s).getD (.node none [])) rest v))

/-- Descends along the given segments, returning the reached node. -/
def Node.findPath : Node → List String → Option Node
  | n, [] => some n
  | .node _ cs, s :: rest =>
    match lookupChild cs s with
    | some c => Node.findPath c rest
    | none => none

/-- The node's own scalar value. -/
def Node.value : Node → Option String
  | .node v _ => v

/-- Helper: after setting a child, looking up that segment returns it. -/
theorem lookupChild_setChild (cs : List (String × Node)) (s : String) (n : Node) :
    lookupChild (setChild cs s n) s = some n := by
  induction cs with
  | nil => simp [setChild, lookupChild]
  | cons kv t ih =>
    by_cases hk : kv.1 = s
    · simp [setChild, lookupChild, hk]
    · simp [setChild, lookupChild, hk, ih]

/-- Helper: the node reached along just-inserted segments carries the inserted
value. -/
theorem insertPath_find_value (segs : List String) (n : Node) (v : String) :
    ((n.insertPath segs v).findPath segs).map Node.value = some (some v) := by
  induction segs generalizing n with
  | nil =>
    obtain ⟨v0, cs⟩ := n
    simp [Node.insertPath, Node.findPath, Node.value]
  | cons s rest ih =>
    obtain ⟨v0, cs⟩ := n
    simp only [Node.insertPath, Node.findPath, lookupChild_setChild]
    exact ih _

/-- Helper: inserting at a strictly longer path leaves the value of the node at
the shorter path unchanged, as long as that node already exists. -/
theorem insertPath_preserves_value (segs : List String) (n : Node) (s2 : String)
    (rest2 : List String) (w : String) (h : (n.findPath segs).isSome = true) :
    ((n.insertPath (segs ++ s2 :: rest2) w).findPath segs).map Node.value =
      (n.findPath segs).map Node.value := by
  induction segs generalizing n with
  | nil =>
    obtain ⟨v0, cs⟩ := n
    simp [Node.insertPath, Node.findPath, Node.value]
  | cons a segs' ih =>
    obtain ⟨v0, cs⟩ := n
    cases hc : lookupChild cs a with
    | none => simp [Node.findPath, hc] at h
    | some c =>
      have hrec : (c.findPath segs').isSome = true := by
        simpa [Node.findPath, hc] using h
      simp only [List.cons_append, Node.insertPath, Node.findPath, hc, Option.getD_some,
        lookupChild_setChild]
      exact ih c hrec

/-- True when the second string is a prefix of the first. -/
def strStartsWith (s pfx : String) : Bool :=
  List.isPrefixOf pfx.data s.data

/-- Modelled from the spec: the segments of a stored full key relative to the
queried path, obtained by splitting on the separator and dropping the segments
of the queried path. -/
def relativeSegments (path key : String) : List String :=
  ((splitChars '/' key.data).drop (splitChars '/' path.data).length).map
    (fun l => String.mk l)

/-- Modelled from the spec: getRecursiveMap returns the full-key/value pairs
stored at or below the queried path. -/
def StoreBackend.getRecursiveMap (b : StoreBackend) (path : String) :
    List (String × String) :=
  b.entries.filter (fun kv => kv.1 == path || strStartsWith kv.1 (path ++ "/"))

/-- Modelled from the spec: getRecursive fetches the same flat pairs and
assembles the subtree rooted at the queried path by inserting each value along
its relative segments. -/
def StoreBackend.getRecursive (b : StoreBackend) (path : String) : Node :=
  (b.getRecursiveMap path).foldl
    (fun t kv => t.insertPath (relativeSegments path kv.1) kv.2) (.node none [])

/-- C7: over the stored pairs of the spec example, getRecursive at "app" yields
the tree with a db child holding host and port leaves and a sibling name leaf,
getRecursiveMap yields exactly the three full-key/value pairs, and in general a
key that is a strict prefix of another key yields a node carrying its own
scalar value and the descendant value, each retrievable independently. -/
theorem recursive_tree_assembly :
    StoreBackend.getRecursive
        ⟨[("app/db/host", "localhost"), ("app/db/port", "5432"), ("app/name", "svc")]⟩ "app" =
      .node none
        [("db", .node none [("host", .node (some "localhost") []),
                            ("port", .node (some "5432") [])]),
         ("name", .node (some "svc") [])]
    ∧ StoreBackend.getRecursiveMap
        ⟨[("app/db/host", "localhost"), ("app/db/port", "5432"), ("app/name", "svc")]⟩ "app" =
      [("app/db/host", "localhost"), ("app/db/port", "5432"), ("app/name", "svc")]
    ∧ ∀ (root : Node) (segs : List String) (s : String) (rest : List String) (v w : String),
        (((root.insertPath segs v).insertPath (segs ++ s :: rest) w).findPath segs).map
            Node.value = some (some v)
        ∧ (((root.insertPath segs v).insertPath (segs ++ s :: rest) w).findPath
            (segs ++ s :: rest)).map Node.value = some (some w) := by
  refine ⟨rfl, rfl, ?_⟩
  intro root segs s rest v w
  have hA := insertPath_find_value segs root v
  have hsome : ((root.insertPath segs v).findPath segs).isSome = true := by
    cases hfp : (root.insertPath segs v).findPath segs with
    | none => rw [hfp] at hA; simp at hA
    | some m => rfl
  constructor
  · rw [insertPath_preserves_value segs _ s rest w hsome, hA]
  · exact insertPath_find_value (segs ++ s :: rest) _ w

/-- Modelled from the spec: the mutable per-instance path-interpretation state
of a backend (the backend implementations are not under src/): the current
prefix and the current path separator. -/
structure PathState where
  prefixPath : String
  separator : Char
deriving DecidableEq, Repr

/-- Embeds setPathSeparator of ConfigurationInterface: overrides the separator
used for paths passed to put/get. -/
def setPathSeparator (st : PathState) (c : Char) : PathState :=
  { st with separator := c }

/-- Embeds resetPathSeparator of ConfigurationInterface: restores the default
separator '/'. -/
def resetPathSeparator (st : PathState) : PathState :=
  { st with separator := '/' }

/-- Embeds setPrefix of ConfigurationInterface: sets the prefix prepended to
all subsequent put/get paths. -/
def setPrefix (st : PathState) (p : String) : PathState :=
  { st with prefixPath := p }

/-- The segments of a string under the given separator character. -/
def pathSegments (sep : Char) (s : String) : List String :=
  (splitChars sep s.data).map (fun l => String.mk l)

/-- Modelled from the spec: the storage location a put/get path addresses on an
instance: the prefix is always interpreted with the default separator '/',
while the path itself is split with the instance's current separator. -/
def PathState.addressOf (st : PathState) (path : String) : List String :=
  pathSegments '/' st.prefixPath ++ pathSegments st.separator path

/-- C8: after setting separator '|' the path "a|b" addresses the same storage
location as "a/b" does under the default separator; resetPathSeparator
restores default-separator interpretation (undoing any previous
setPathSeparator); and the custom separator never applies to the prefix, which
is interpreted with '/' regardless of the separator in force. -/
theorem path_separator_semantics :
    (∀ st : PathState, (setPathSeparator st '|').addressOf "a|b" =
        (resetPathSeparator st).addressOf "a/b")
    ∧ (∀ (st : PathState) (c : Char),
        resetPathSeparator (setPathSeparator st c) = resetPathSeparator st)
    ∧ (∀ st : PathState, (resetPathSeparator st).separator = '/'
        ∧ (resetPathSeparator st).prefixPath = st.prefixPath)
    ∧ (∀ (st : PathState) (c : Char) (p path : String),
        (setPrefix (setPathSeparator st c) p).addressOf path =
          pathSegments '/' p ++ pathSegments c path)
    ∧ (∀ (st : PathState) (c : Char), (setPathSeparator st c).prefixPath = st.prefixPath) := by
  refine ⟨?_, ?_, ?_, ?_, ?_⟩
  · intro st
    show pathSegments '/' st.prefixPath ++ pathSegments '|' "a|b" =
      pathSegments '/' st.prefixPath ++ pathSegments '/' "a/b"
    congr 1
  · intro st c
    rfl
  · intro st
    exact ⟨rfl, rfl⟩
  · intro st c p path
    rfl
  · intro st c
    rfl

/-- True when the second string is a suffix of the first. -/
def strEndsWith (s suf : String) : Bool :=
  List.isSuffixOf suf.data s.data

/-- Drops the first n characters of a string. -/
def strDrop (n : Nat) (s : String) : String :=
  String.mk (s.data.drop n)

/-- Error record of the external INI parser (boost ini_parser_error): a
message, the file name, and the offending line, 0 when the parser provides
none. -/
structure IniParseError where
  message : String
  filename : String
  line : Nat
deriving DecidableEq, Repr

/-- The suffix test of configFile::load: the file name must end in ".ini" or
".cfg" (SUFFIX_FILE_INI). -/
def suffixOkIni (filename : String) : Bool :=
  strEndsWith filename ".ini" || strEndsWith filename ".cfg"

namespace configFile

/-- Embeds configFile::load of src/Configuration.cxx, with the external INI
parser abstracted as a function argument: a path not starting with "file:"
throws "Invalid path prefix"; a "file:" path whose file name has neither
accepted suffix throws "Invalid type in file name"; a parser error is rethrown
with the message, the file name, and the line number when the parser provides
one; otherwise the parsed tree is kept. -/
def load {α : Type} (readIni : String → Except IniParseError α) (path : String) :
    Except String α :=
  if strStartsWith path "file:" then
    let filename := strDrop 5 path
    if suffixOkIni filename then
      match readIni filename with
      | .ok pt => .ok pt
      | .error perr =>
        .error (if perr.line = 0 then
            perr.message ++ " " ++ perr.filename
          else
            perr.message ++ " in " ++ perr.filename ++ " line " ++ toString perr.line)
    else
      .error "Invalid type in file name"
  else
    .error "Invalid path prefix"

end configFile

/-- C9: configFile::load accepts exactly the "file:"-prefixed paths with an
".ini" or ".cfg" file name that the INI parser accepts; a path without the
prefix fails with "Invalid path prefix", a prefixed path with another suffix
fails with "Invalid type in file name", and a parser rejection is reported with
the parser's message, the file name, and the line number when provided. -/
theorem configFile_load_validation :
    ∀ (α : Type) (readIni : String → Except IniParseError α) (path : String),
      (strStartsWith path "file:" = false →
          configFile.load readIni path = .error "Invalid path prefix")
      ∧ (strStartsWith path "file:" = true → suffixOkIni (strDrop 5 path) = false →
          configFile.load readIni path = .error "Invalid type in file name")
      ∧ (∀ e : IniParseError, strStartsWith path "file:" = true →
          suffixOkIni (strDrop 5 path) = true → readIni (strDrop 5 path) = .error e →
          e.line ≠ 0 →
          configFile.load readIni path =
            .error (e.message ++ " in " ++ e.filename ++ " line " ++ toString e.line))
      ∧ (∀ e : IniParseError, strStartsWith path "file:" = true →
          suffixOkIni (strDrop 5 path) = true → readIni (strDrop 5 path) = .error e →
          e.line = 0 →
          configFile.load readIni path = .error (e.message ++ " " ++ e.filename))
      ∧ (∀ a, configFile.load readIni path = .ok a ↔
          (strStartsWith path "file:" = true ∧ suffixOkIni (strDrop 5 path) = true ∧
           readIni (strDrop 5 path) = .ok a)) := by
  intro α readIni path
  refine ⟨?_, ?_, ?_, ?_, ?_⟩
  · intro h
    simp [configFile.load, h]
  · intro h hsuf
    simp [configFile.load, h, hsuf]
  · intro e h hsuf herr hline
    simp [configFile.load, h, hsuf, herr, hline]
  · intro e h hsuf herr hline
    simp [configFile.load, h, hsuf, herr, hline]
  · intro a
    constructor
    · intro hok
      by_cases h : strStartsWith path "file:" = true
      · by_cases hsuf : suffixOkIni (strDrop 5 path) = true
        · refine ⟨h, hsuf, ?_⟩
          cases herr : readIni (strDrop 5 path) with
          | ok b =>
            have hba : b = a := by
              simp only [configFile.load, h, if_true, hsuf, herr, Except.ok.injEq] at hok
              exact hok
            rw [hba]
          | error e => simp [configFile.load, h, hsuf, herr] at hok
        · simp [configFile.load, h, hsuf] at hok
      · simp [configFile.load, Bool.of_not_eq_true h] at hok
    · rintro ⟨h, hsuf, hread⟩
      simp [configFile.load, h, hsuf, hread]

/-- Closed witness for C9: a bad-prefix path, a bad-suffix path, a parser error
with a line number, and a successful parse, against concrete parser stubs. -/
theorem configFile_load_validation_witness :
    configFile.load (fun _ => (.ok 0 : Except IniParseError Nat)) "/etc/app.ini" =
      .error "Invalid path prefix"
    ∧ configFile.load (fun _ => (.ok 0 : Except IniParseError Nat)) "file:app.txt" =
      .error "Invalid type in file name"
    ∧ configFile.load (fun _ => (.error ⟨"bad value", "app.ini", 3⟩ : Except IniParseError Nat))
        "file:app.ini" = .error "bad value in app.ini line 3"
    ∧ configFile.load (fun _ => (.ok 7 : Except IniParseError Nat)) "file:app.ini" = .ok 7 := by
  refine ⟨?_, ?_, ?_, ?_⟩
  · exact (configFile_load_validation Nat (fun _ => .ok 0) "/etc/app.ini").1 (by decide)
  · exact (configFile_load_validation Nat (fun _ => .ok 0) "file:app.txt").2.1 (by decide)
      (by decide)
  · exact (configFile_load_validation Nat (fun _ => .error ⟨"bad value", "app.ini", 3⟩)
      "file:app.ini").2.2.1 ⟨"bad value", "app.ini", 3⟩ (by decide) (by decide) rfl (by decide)
  · exact ((configFile_load_validation Nat (fun _ => .ok 7) "file:app.ini").2.2.2.2 7).mpr
      ⟨by decide, by decide, rfl⟩
